import Mathlib

/-!
Verification development for the numsim-core parameter store.

The definitions below are a shallow embedding of the two subsystems of the
repository:

* `query_map` (src/include/numsim-core/query_map.h): a nested-map store keyed
  by a tuple of keys, bottoming out in a type-erased value (`std::any`),
  with deferred queries (`query` / `final_queries`).
* `input_parameter_controller` (input_parameter_controller.h): named
  parameters carrying chains of validation rules (`is_required`,
  `check_range`, `set_default`, `check_data_type`) applied against a flat
  name-to-value parameter handler.

`std::unordered_map` is modelled as an association list whose keys are unique
(uniqueness is the `NodupKeys` invariant; a real `unordered_map` cannot hold
duplicate keys).  `std::any` is modelled as a tagged union `AnyVal` over a
small closed universe `VTy` of value types together with `anyCast`, the
embedding of `std::any_cast` (returns `none` on a type mismatch).  C++
exceptions are modelled with `Except`, or with an explicit
`state times Option error` result where a function mutates state before an
exception can escape.
-/

/-- Universe of value types that can be stored in the type-erased slot
(`std::any`).  A closed universe standing for the types instantiated in the
repository (int, std::string, bool). -/
inductive VTy where
  | vint
  | vstr
  | vbool
deriving DecidableEq

/-- Denotation of a value type. -/
@[reducible]
def VTy.denote : VTy → Type
  | .vint => Int
  | .vstr => String
  | .vbool => Bool

/-- Model of `std::any`: a value together with its dynamic type identity. -/
inductive AnyVal where
  | vint (n : Int)
  | vstr (s : String)
  | vbool (b : Bool)
deriving DecidableEq

/-- Boxing a typed value into the type-erased slot (`std::make_any<T>`). -/
def mkAny : (t : VTy) → t.denote → AnyVal
  | .vint, n => .vint n
  | .vstr, s => .vstr s
  | .vbool, b => .vbool b

/-- Model of `std::any_cast<T>`: succeeds exactly when the stored dynamic
type matches the requested one, never reinterprets. -/
def anyCast : (t : VTy) → AnyVal → Option t.denote
  | .vint, .vint n => some n
  | .vstr, .vstr s => some s
  | .vbool, .vbool b => some b
  | _, _ => none

theorem anyCast_mkAny (t : VTy) (v : t.denote) : anyCast t (mkAny t v) = some v := by
  cases t <;> rfl

/-- Strict comparison `a < b` for each storable type, as written with
`operator<` in `check_range::check`. -/
def VTy.blt : (t : VTy) → t.denote → t.denote → Bool
  | .vint, a, b => decide (a < b)
  | .vstr, a, b => decide (a < b)
  | .vbool, a, b => !a && b

/-- Universe of key types used to instantiate the store
(`int` and `std::string`, the key types instantiated in the repository). -/
inductive KTy where
  | kint
  | kstr
deriving DecidableEq

/-- Denotation of a key type. -/
@[reducible]
def KTy.denote : KTy → Type
  | .kint => Int
  | .kstr => String

instance : (k : KTy) → DecidableEq k.denote
  | .kint => inferInstanceAs (DecidableEq Int)
  | .kstr => inferInstanceAs (DecidableEq String)

/-- The rendering of a missing key in the error message of
`query_map::get_list_first` / `get_list_impl`: a string key verbatim
(the `if constexpr` string branch), any other key via `std::to_string`. -/
def KTy.render : (k : KTy) → k.denote → String
  | .kstr, s => s
  | .kint, n => toString n

section AssocMap

variable {κ : Type u} {β : Type v} [DecidableEq κ]

/-- `unordered_map::find`: the value stored under a key, if present. -/
def mfind : List (κ × β) → κ → Option β
  | [], _ => none
  | (k', v) :: rest, k => if k' = k then some v else mfind rest k

/-- `unordered_map` insert-or-assign (`map[k] = v`, `insert_or_assign`):
overwrite the entry if the key is present, append a new entry otherwise. -/
def massign : List (κ × β) → κ → β → List (κ × β)
  | [], k, v => [(k, v)]
  | (k', v') :: rest, k, v =>
      if k' = k then (k', v) :: rest else (k', v') :: massign rest k v

/-- In-place update through `map[k]` used by `query_map::set_imp`:
`operator[]` default-constructs a fresh entry (`dflt`) when the key is
absent, and the recursive call then mutates that entry (`f`). -/
def mapUpd : List (κ × β) → κ → β → (β → β) → List (κ × β)
  | [], k, dflt, f => [(k, f dflt)]
  | (k', v) :: rest, k, dflt, f =>
      if k' = k then (k', f v) :: rest else (k', v) :: mapUpd rest k dflt f

/-- The key-uniqueness invariant of `unordered_map` in the association-list
model: every key appears at most once. -/
def NodupKeys (m : List (κ × β)) : Prop := (m.map Prod.fst).Nodup

instance (m : List (κ × β)) : Decidable (NodupKeys m) :=
  inferInstanceAs (Decidable (m.map Prod.fst).Nodup)

/-- Number of entries stored under a key. -/
def countKey (m : List (κ × β)) (k : κ) : Nat :=
  (m.filter (fun p => decide (p.1 = k))).length

@[simp]
theorem mfind_nil (k : κ) : mfind ([] : List (κ × β)) k = none := rfl

theorem mfind_mem {m : List (κ × β)} {k : κ} {v : β} (h : mfind m k = some v) :
    (k, v) ∈ m := by
  induction m with
  | nil => simp [mfind] at h
  | cons p rest ih =>
      obtain ⟨k', v'⟩ := p
      by_cases hk : k' = k
      · subst hk
        simp [mfind] at h
        simp [h]
      · simp [mfind, hk] at h
        exact List.mem_cons_of_mem _ (ih h)

theorem mfind_eq_none_of_not_mem {m : List (κ × β)} {k : κ}
    (h : k ∉ m.map Prod.fst) : mfind m k = none := by
  induction m with
  | nil => rfl
  | cons p rest ih =>
      obtain ⟨k', v'⟩ := p
      have h1 : k' ≠ k := by
        intro hh
        exact h (by simp [hh])
      have h2 : k ∉ rest.map Prod.fst := by
        intro hh
        exact h (by simp [hh])
      simp [mfind, h1, ih h2]

@[simp]
theorem mfind_massign_self (m : List (κ × β)) (k : κ) (v : β) :
    mfind (massign m k v) k = some v := by
  induction m with
  | nil => simp [massign, mfind]
  | cons p rest ih =>
      obtain ⟨k', v'⟩ := p
      by_cases hk : k' = k
      · simp [massign, hk, mfind]
      · simp [massign, hk, mfind, ih]

theorem mfind_massign_ne (m : List (κ × β)) (k k' : κ) (v : β) (h : k' ≠ k) :
    mfind (massign m k v) k' = mfind m k' := by
  have hne : k ≠ k' := Ne.symm h
  induction m with
  | nil => simp [massign, mfind, hne]
  | cons p rest ih =>
      obtain ⟨k₀, v₀⟩ := p
      by_cases hk : k₀ = k
      · subst hk
        simp [massign, mfind, hne]
      · simp [massign, hk, mfind, ih]

@[simp]
theorem mfind_mapUpd_self (m : List (κ × β)) (k : κ) (dflt : β) (f : β → β) :
    mfind (mapUpd m k dflt f) k = some (f ((mfind m k).getD dflt)) := by
  induction m with
  | nil => simp [mapUpd, mfind]
  | cons p rest ih =>
      obtain ⟨k', v'⟩ := p
      by_cases hk : k' = k
      · simp [mapUpd, hk, mfind]
      · simp [mapUpd, hk, mfind, ih]

theorem mfind_mapUpd_ne (m : List (κ × β)) (k k' : κ) (dflt : β) (f : β → β)
    (h : k' ≠ k) : mfind (mapUpd m k dflt f) k' = mfind m k' := by
  have hne : k ≠ k' := Ne.symm h
  induction m with
  | nil => simp [mapUpd, mfind, hne]
  | cons p rest ih =>
      obtain ⟨k₀, v₀⟩ := p
      by_cases hk : k₀ = k
      · subst hk
        simp [mapUpd, mfind, hne]
      · simp [mapUpd, hk, mfind, ih]

theorem keys_massign (m : List (κ × β)) (k : κ) (v : β) :
    (massign m k v).map Prod.fst =
      if k ∈ m.map Prod.fst then m.map Prod.fst else m.map Prod.fst ++ [k] := by
  induction m with
  | nil => simp [massign]
  | cons p rest ih =>
      obtain ⟨k₀, v₀⟩ := p
      by_cases hk : k₀ = k
      · subst hk
        simp [massign]
      · have hne : ¬ k = k₀ := by
          intro hh
          exact hk hh.symm
        by_cases hmem : k ∈ rest.map Prod.fst
        · simp [massign, hk, ih, hmem, hne]
        · simp [massign, hk, ih, hmem, hne]

theorem nodupKeys_massign (m : List (κ × β)) (k : κ) (v : β)
    (h : NodupKeys m) : NodupKeys (massign m k v) := by
  unfold NodupKeys at h ⊢
  rw [keys_massign]
  by_cases hmem : k ∈ m.map Prod.fst
  · simpa [hmem] using h
  · simp only [hmem, if_false]
    refine h.append (List.nodup_singleton k) ?_
    intro a ha hb
    rw [List.mem_singleton] at hb
    subst hb
    exact hmem ha

theorem countKey_eq_zero_of_not_mem {m : List (κ × β)} {k : κ}
    (h : k ∉ m.map Prod.fst) : countKey m k = 0 := by
  induction m with
  | nil => rfl
  | cons p rest ih =>
      obtain ⟨k₀, v₀⟩ := p
      simp at h
      have hne : ¬ k₀ = k := fun hh => h.1 hh.symm
      simp [countKey, hne] at ih ⊢
      exact ih h.2

theorem countKey_massign (m : List (κ × β)) (k : κ) (v : β)
    (h : NodupKeys m) : countKey (massign m k v) k = 1 := by
  induction m with
  | nil => simp [massign, countKey]
  | cons p rest ih =>
      obtain ⟨k₀, v₀⟩ := p
      simp [NodupKeys] at h
      by_cases hk : k₀ = k
      · subst hk
        have hrest : countKey rest k₀ = 0 :=
          countKey_eq_zero_of_not_mem (by simpa using h.1)
        simp [massign, countKey] at hrest ⊢
        exact hrest
      · have hrest := ih h.2
        simp [massign, hk, countKey] at hrest ⊢
        exact hrest

end AssocMap

namespace query_map

/-- The leaf map of the store: the single-key specialization of
`query_map_data`, `Map<_First, TypeErasure>`. -/
abbrev NMap1 (k : KTy) : Type := List (k.denote × AnyVal)

/-- The arity-2 store: `Map<_First, Map<_Second, TypeErasure>>`, the shape
built by the recursive `query_map_data` specialization (this is the arity of
`double_query_map` and of the instantiations in the repository's tests;
`get_list_first` / `get_list_impl` only provide overloads for one or two
remaining indices, so `get` exists at these arities). -/
abbrev NMap2 (k1 k2 : KTy) : Type := List (k1.denote × NMap1 k2)

/-- The error message thrown by `get_list_first` / `get_list_impl`:
`std::invalid_argument(std::string("key ") + str() + std::string(" not found"))`. -/
def keyNotFoundMsg (s : String) : String := "key " ++ s ++ " not found"

/-- `query_map::set` on an arity-1 store: `set_imp` base case,
`map[last] = func(data)`. -/
def set1 {k : KTy} {α : Type} (m : NMap1 k) (data : α) (func : α → AnyVal)
    (last : k.denote) : NMap1 k :=
  massign m last (func data)

/-- `query_map::set` on an arity-2 store: the recursive `set_imp` step
`set_imp(map[first], data, func, last)` (where `map[first]`
default-constructs an empty inner map when absent) followed by the base case
`inner[last] = func(data)`. -/
def set2 {k1 k2 : KTy} {α : Type} (m : NMap2 k1 k2) (data : α)
    (func : α → AnyVal) (first : k1.denote) (last : k2.denote) : NMap2 k1 k2 :=
  mapUpd m first [] (fun inner => massign inner last (func data))

/-- The value a call to `query_map::set` hands back to its caller: the member
is declared `void set(...)` in the source, so every call returns unit. -/
def set_call_return {k1 k2 : KTy} {α : Type} (_ : NMap2 k1 k2) (_ : α)
    (_ : α → AnyVal) (_ : k1.denote) (_ : k2.denote) : Unit := ()

/-- `query_map::get` on an arity-1 store: `get_list_first` checks the key in
`m_data` (throwing the key-not-found message when absent) and the empty-index
`get_list_impl` base case returns the found slot. -/
def get1 {k : KTy} (m : NMap1 k) (key : k.denote) : Except String AnyVal :=
  match mfind m key with
  | none => .error (keyNotFoundMsg (KTy.render k key))
  | some v => .ok v

/-- `query_map::get` on an arity-2 store: `get_list_first` checks the first
key in `m_data`, then the single-index `get_list_impl` overload checks the
last key in the nested map; the first absent key along the path throws the
key-not-found message with that key rendered as text. -/
def get2 {k1 k2 : KTy} (m : NMap2 k1 k2) (first : k1.denote)
    (last : k2.denote) : Except String AnyVal :=
  match mfind m first with
  | none => .error (keyNotFoundMsg (KTy.render k1 first))
  | some inner =>
      match mfind inner last with
      | none => .error (keyNotFoundMsg (KTy.render k2 last))
      | some v => .ok v

/-- A deferred query as stored in `m_queries`: the callback paired with the
key tuple.  The callback receives a mutable reference to the resolved
type-erased value and may also touch state outside the store; both effects
are modelled explicitly (external state `σ`, new value returned). -/
abbrev Query (σ : Type) (k1 k2 : KTy) : Type :=
  (σ → AnyVal → σ × AnyVal) × (k1.denote × k2.denote)

/-- `query_map::query`: appends the (callback, keys) pair to `m_queries`;
the store itself is not touched and the keys are not resolved yet. -/
def query {σ : Type} {k1 k2 : KTy} (qs : List (Query σ k1 k2))
    (f : σ → AnyVal → σ × AnyVal) (ks : k1.denote × k2.denote) :
    List (Query σ k1 k2) :=
  qs ++ [(f, ks)]

/-- Write-back of a callback's mutation through the reference returned by
`get_list_first` (the path is present whenever this is reached). -/
def upd2 {k1 k2 : KTy} (m : NMap2 k1 k2) (first : k1.denote)
    (last : k2.denote) (v : AnyVal) : NMap2 k1 k2 :=
  mapUpd m first [] (fun inner => massign inner last v)

/-- `query_map::final_queries`: runs the stored queries in order; each step
resolves the key tuple with `get_list_first` (the same algorithm as `get`)
and applies the callback to the resolved value.  A failed resolution throws:
the store and external state keep the effects of the earlier queries and the
remaining queries never run, which the result models as
(store, state, optional error). -/
def final_queries {σ : Type} {k1 k2 : KTy} :
    List (Query σ k1 k2) → NMap2 k1 k2 → σ → NMap2 k1 k2 × σ × Option String
  | [], m, st => (m, st, none)
  | (f, ks) :: rest, m, st =>
      match get2 m ks.1 ks.2 with
      | .error e => (m, st, some e)
      | .ok v =>
          let r := f st v
          final_queries rest (upd2 m ks.1 ks.2 r.2) r.1

end query_map

/-- The flat parameter handler the rule chain runs against
(`parameter_handler` / the `MockParameterHandler` of the tests): a mapping
from names to type-erased values. -/
abbrev Handler : Type := List (String × AnyVal)

/-- `handler.contains(name)`. -/
def Handler.contains (h : Handler) (name : String) : Bool :=
  (mfind h name).isSome

/-- `handler.insert(name, value)`: `parameters[name] = value`
(insert-or-assign). -/
def Handler.insert (h : Handler) (name : String) (v : AnyVal) : Handler :=
  massign h name v

/-- Errors raised by the rule chain, each standing for a distinct exception
of the source: `missingParam` for `is_required`'s
"Parameter ... is missing!", `outOfRange` for `check_range`'s
"Parameter ... out of range", `badAnyCast` for `std::bad_any_cast` out of a
typed read of a value of the wrong dynamic type, `notFound` for a typed read
of an absent name. -/
inductive PErr where
  | missingParam (name : String)
  | outOfRange (name : String)
  | badAnyCast
  | notFound (name : String)
deriving DecidableEq

/-- `handler.get<T>(name)`: `any_cast<T>(parameters.at(name))` — throws when
the name is absent, throws `bad_any_cast` when the stored dynamic type is
not `T`. -/
def Handler.get (t : VTy) (h : Handler) (name : String) :
    Except PErr t.denote :=
  match mfind h name with
  | none => .error (.notFound name)
  | some a =>
      match anyCast t a with
      | none => .error .badAnyCast
      | some v => .ok v

/-- `is_required::check`: throws "Parameter ... is missing!" when the name is
absent from the handler; otherwise does nothing. -/
def is_required.check (name : String) (h : Handler) : Except PErr Handler :=
  if Handler.contains h name then .ok h else .error (.missingParam name)

/-- `check_range::check`: only acts when the handler contains the name; then
reads the typed value and throws "Parameter ... out of range" when
`value < m_low || value > m_high` (for the stored types `a > b` is `b < a`). -/
def check_range.check (t : VTy) (name : String) (low high : t.denote)
    (h : Handler) : Except PErr Handler :=
  if Handler.contains h name then
    match Handler.get t h name with
    | .error e => .error e
    | .ok value =>
        if t.blt value low || t.blt high value then .error (.outOfRange name)
        else .ok h
  else .ok h

/-- `set_default::check`: inserts the default value under the name when the
name is absent from the handler; otherwise does nothing. -/
def set_default.check (t : VTy) (name : String) (value : t.denote)
    (h : Handler) : Except PErr Handler :=
  if Handler.contains h name then .ok h
  else .ok (Handler.insert h name (mkAny t value))

/-- `check_data_type::check`: when the name is present, performs a typed read
and rethrows its failure (a wrong dynamic type surfaces as `bad_any_cast`);
otherwise does nothing. -/
def check_data_type.check (t : VTy) (name : String) (h : Handler) :
    Except PErr Handler :=
  if Handler.contains h name then
    match Handler.get t h name with
    | .error e => .error e
    | .ok _ => .ok h
  else .ok h

/-- The registered rule kinds a parameter of declared type `t` can carry
(the four `input_parameter_check_base` subclasses). -/
inductive Rule (t : VTy) where
  | required
  | range (low high : t.denote)
  | dflt (value : t.denote)
  | typeCheck

/-- Dispatch of the virtual `check(handler)` over the rule kinds. -/
def Rule.check {t : VTy} : Rule t → String → Handler → Except PErr Handler
  | .required, name, h => is_required.check name h
  | .range low high, name, h => check_range.check t name low high h
  | .dflt v, name, h => set_default.check t name v h
  | .typeCheck, name, h => check_data_type.check t name h

/-- `input_parameter::check_parameter`: runs the owned checks in registration
order; the first throwing check aborts the chain.  The result carries the
handler state reached so far (mutations before the throw are kept) together
with the optional error. -/
def input_parameter.check_parameter {t : VTy} (name : String) :
    List (Rule t) → Handler → Handler × Option PErr
  | [], h => (h, none)
  | r :: rest, h =>
      match r.check name h with
      | .error e => (h, some e)
      | .ok h2 => input_parameter.check_parameter name rest h2

/-- `input_parameter_controller::operator=(input_parameter_controller&&)`:
when the destination map is empty the source map is adopted wholesale;
otherwise every (key, spec) pair of the source is assigned into the
destination (`m_data[key] = std::move(check)`), overwriting existing keys
and leaving the destination's other keys alone. -/
def input_parameter_controller.move_assign {κ P : Type} [DecidableEq κ]
    (A B : List (κ × P)) : List (κ × P) :=
  if A.isEmpty then B
  else B.foldl (fun acc kv => massign acc kv.1 kv.2) A

open query_map

/-- C1: round-trip through the store — for every key path of the store's
arity and every value `v` of type `T`, after `set(k..., box(v))` extracting
`T` from `get(k...)` yields `v` (stated for the arity-1 and arity-2 stores,
the arities at which the source instantiates `get`). -/
theorem roundtrip_set_get (k1 k2 : KTy) :
    (∀ (m : NMap1 k1) (key : k1.denote) (t : VTy) (v : t.denote),
        (match get1 (set1 m v (mkAny t) key) key with
         | .ok a => anyCast t a
         | .error _ => none) = some v)
  ∧ (∀ (m : NMap2 k1 k2) (first : k1.denote) (last : k2.denote)
        (t : VTy) (v : t.denote),
        (match get2 (set2 m v (mkAny t) first last) first last with
         | .ok a => anyCast t a
         | .error _ => none) = some v) := by
  constructor
  · intro m key t v
    simp [get1, set1, mfind_massign_self, anyCast_mkAny]
  · intro m first last t v
    simp [get2, set2, mfind_mapUpd_self, mfind_massign_self, anyCast_mkAny]

/-- C2 (amended): `get` fails at the first absent key along the path —
including the final one — with the invalid-argument message that renders the
missing key as text (string keys verbatim, other keys via their default
textual representation `std::to_string`); the position of the failing
segment is not part of the error. -/
theorem get_fails_first_missing_key (k1 k2 : KTy) :
    (∀ (m : NMap1 k1) (key : k1.denote),
        mfind m key = none →
        get1 m key = .error (keyNotFoundMsg (KTy.render k1 key)))
  ∧ (∀ (m : NMap2 k1 k2) (first : k1.denote) (last : k2.denote),
        mfind m first = none →
        get2 m first last = .error (keyNotFoundMsg (KTy.render k1 first)))
  ∧ (∀ (m : NMap2 k1 k2) (first : k1.denote) (last : k2.denote)
        (inner : NMap1 k2),
        mfind m first = some inner → mfind inner last = none →
        get2 m first last = .error (keyNotFoundMsg (KTy.render k2 last))) := by
  refine ⟨?_, ?_, ?_⟩
  · intro m key hm
    simp [get1, hm]
  · intro m first last hm
    simp [get2, hm]
  · intro m first last inner hm hinner
    simp [get2, hm, hinner]

/-- C2 counterexample: the error does not let the caller tell which segment
of the path failed.  On the arity-2 string-keyed store, the empty store
fails at the first segment of the path ("a", "a") while the store holding an
empty inner map under "a" fails at the second segment, yet both failures
carry the identical error — so no reading of the error can name the failing
position. -/
theorem get_error_position_counterexample :
    mfind ([] : NMap2 .kstr .kstr) "a" = none
  ∧ mfind ([("a", [])] : NMap2 .kstr .kstr) "a" = some []
  ∧ mfind ([] : NMap1 .kstr) "a" = none
  ∧ ¬ ∃ f : String → Nat,
      (∀ e, get2 ([] : NMap2 .kstr .kstr) "a" "a" = .error e → f e = 0)
      ∧ (∀ e, get2 ([("a", [])] : NMap2 .kstr .kstr) "a" "a" = .error e →
          f e = 1) := by
  refine ⟨rfl, rfl, rfl, ?_⟩
  rintro ⟨f, h0, h1⟩
  have a0 : f (keyNotFoundMsg (KTy.render .kstr "a")) = 0 := h0 _ rfl
  have a1 : f (keyNotFoundMsg (KTy.render .kstr "a")) = 1 := h1 _ rfl
  rw [a0] at a1
  exact absurd a1 (by decide)

/-- C2 witness: a concrete miss at the second segment — the first key is
present, the inner map lacks the final key, and the rendered error names
that final key. -/
theorem get_fails_first_missing_key_witness :
    get2 ([((1 : Int), ([] : NMap1 .kstr))] : NMap2 .kint .kstr) 1 "x"
      = .error (keyNotFoundMsg (KTy.render .kstr "x")) :=
  (get_fails_first_missing_key .kint .kstr).2.2 _ 1 "x" [] rfl rfl

/-- C3: last write wins and `set` never fails — starting from any store
(missing intermediate mappings are created on demand by `operator[]`),
`set(k..., a); set(k..., b)` leaves `b` at the path, retrievable by `get`,
with exactly one entry under the final key (key uniqueness of the underlying
maps is the `NodupKeys` model invariant of `unordered_map`). -/
theorem set_last_write_wins (k1 k2 : KTy) :
    (∀ (m : NMap1 k1) (key : k1.denote) (a b : AnyVal),
        NodupKeys m →
        get1 (set1 (set1 m a id key) b id key) key = .ok b
        ∧ countKey (set1 (set1 m a id key) b id key) key = 1)
  ∧ (∀ (m : NMap2 k1 k2) (first : k1.denote) (last : k2.denote)
        (a b : AnyVal),
        (∀ p ∈ m, NodupKeys p.2) →
        get2 (set2 (set2 m a id first last) b id first last) first last = .ok b
        ∧ countKey
            ((mfind (set2 (set2 m a id first last) b id first last)
              first).getD []) last = 1) := by
  constructor
  · intro m key a b hm
    constructor
    · simp [get1, set1, mfind_massign_self]
    · exact countKey_massign _ _ _ (nodupKeys_massign _ _ _ hm)
  · intro m first last a b hm
    have hI0 : NodupKeys ((mfind m first).getD ([] : NMap1 k2)) := by
      cases hf : mfind m first with
      | none => simp [NodupKeys]
      | some inner =>
          simpa using hm (first, inner) (mfind_mem hf)
    constructor
    · simp [get2, set2, mfind_mapUpd_self, mfind_massign_self]
    · simp only [set2, mfind_mapUpd_self, Option.getD_some]
      exact countKey_massign _ _ _ (nodupKeys_massign _ _ _ hI0)

/-- C3 witness: a concrete run of the double write on the empty arity-2
store. -/
theorem set_last_write_wins_witness :
    (∀ p ∈ ([] : NMap2 .kint .kstr), NodupKeys p.2)
  ∧ get2 (set2 (set2 ([] : NMap2 .kint .kstr) (AnyVal.vint 1) id 7 "x")
        (AnyVal.vint 2) id 7 "x") 7 "x" = .ok (AnyVal.vint 2)
  ∧ countKey
      ((mfind (set2 (set2 ([] : NMap2 .kint .kstr) (AnyVal.vint 1) id 7 "x")
          (AnyVal.vint 2) id 7 "x") 7).getD []) "x" = 1 := by
  have h := (set_last_write_wins .kint .kstr).2
      ([] : NMap2 .kint .kstr) 7 "x" (AnyVal.vint 1) (AnyVal.vint 2)
      (by intro p hp; simp at hp)
  exact ⟨by intro p hp; simp at hp, h.1, h.2⟩

/-- C9 (amended): `query_map::set` is declared `void` and hands no value
back to its caller; it stores `func(data)` at the full key path
(insert-or-overwrite), so the stored value is the one a subsequent `get`
returns. -/
theorem set_stores_value (k1 k2 : KTy) :
    (∀ (m : NMap1 k1) {α : Type} (data : α) (func : α → AnyVal)
        (key : k1.denote),
        get1 (set1 m data func key) key = .ok (func data))
  ∧ (∀ (m : NMap2 k1 k2) {α : Type} (data : α) (func : α → AnyVal)
        (first : k1.denote) (last : k2.denote),
        get2 (set2 m data func first last) first last = .ok (func data)) := by
  constructor
  · intro m α data func key
    simp [get1, set1, mfind_massign_self]
  · intro m α data func first last
    simp [get2, set2, mfind_mapUpd_self, mfind_massign_self]

/-- C9 counterexample: `set` does not return (anything determining) the
stored value.  The member is `void`, so two calls storing different values
hand the caller the same unit return; no reading of that return can recover
the stored value. -/
theorem set_return_value_counterexample :
    ¬ ∃ g : Unit → AnyVal,
      g (set_call_return ([] : NMap2 .kint .kstr) (0 : Int) (mkAny .vint)
          1 "k") = mkAny .vint 0
      ∧ g (set_call_return ([] : NMap2 .kint .kstr) (1 : Int) (mkAny .vint)
          1 "k") = mkAny .vint 1 := by
  rintro ⟨g, h0, h1⟩
  have e0 : g () = mkAny .vint 0 := h0
  have e1 : g () = mkAny .vint 1 := h1
  rw [e0] at e1
  exact absurd e1 (by decide)

/-- C4: `run_all_queries` (the source's `final_queries`) executes the
registered (callback, key-path) pairs strictly in registration order,
resolving each path with `get_list_first` — the same algorithm as `get`.
The first conjunct splits a run at any point of the registration list: the
earlier queries run first and in full, the later ones run on the store and
external state the earlier ones produced, and when the earlier part fails
its partial effects are kept (no rollback) while the later queries are never
invoked (the error result ignores them).  The second conjunct exhibits a
single query's step as exactly a `get` resolution followed by the callback. -/
theorem final_queries_in_order_no_rollback (σ : Type) (k1 k2 : KTy) :
    (∀ (qs1 qs2 : List (Query σ k1 k2)) (m : NMap2 k1 k2) (st : σ),
        final_queries (qs1 ++ qs2) m st =
          (match final_queries qs1 m st with
           | (m2, st2, none) => final_queries qs2 m2 st2
           | r => r))
  ∧ (∀ (f : σ → AnyVal → σ × AnyVal) (ks : k1.denote × k2.denote)
        (m : NMap2 k1 k2) (st : σ),
        final_queries [(f, ks)] m st =
          (match get2 m ks.1 ks.2 with
           | .error e => (m, st, some e)
           | .ok v => (upd2 m ks.1 ks.2 (f st v).2, (f st v).1, none))) := by
  constructor
  · intro qs1 qs2 m st
    induction qs1 generalizing m st with
    | nil => simp [final_queries]
    | cons q rest ih =>
        obtain ⟨f, ks⟩ := q
        cases hg : get2 m ks.1 ks.2 with
        | error e => simp [final_queries, hg]
        | ok v => simp [final_queries, hg, ih]
  · intro f ks m st
    cases hg : get2 m ks.1 ks.2 with
    | error e => simp [final_queries, hg]
    | ok v => simp [final_queries, hg]

theorem mfind_foldl_massign {κ P : Type} [DecidableEq κ] (B : List (κ × P)) :
    ∀ (A : List (κ × P)) (k : κ), NodupKeys B →
      mfind (B.foldl (fun acc kv => massign acc kv.1 kv.2) A) k =
        (match mfind B k with
         | some v => some v
         | none => mfind A k) := by
  induction B with
  | nil => intro A k _; simp [mfind]
  | cons p rest ih =>
      intro A k hB
      obtain ⟨k0, v0⟩ := p
      have hBc : (k0 :: rest.map Prod.fst).Nodup := hB
      have hB2 : NodupKeys rest := (List.nodup_cons.mp hBc).2
      have hk0 : k0 ∉ rest.map Prod.fst := (List.nodup_cons.mp hBc).1
      rw [List.foldl_cons, ih (massign A k0 v0) k hB2]
      cases hkk : mfind rest k with
      | some v =>
          have hne : k0 ≠ k := by
            intro hh
            subst hh
            rw [mfind_eq_none_of_not_mem hk0] at hkk
            exact Option.noConfusion hkk
          simp [mfind, hne, hkk]
      | none =>
          by_cases hk : k0 = k
          · subst hk
            simp [mfind, hkk, mfind_massign_self]
          · have hkne : k ≠ k0 := fun hh => hk hh.symm
            simp [mfind, hk, hkk, mfind_massign_ne A k0 k v0 hkne]

/-- C5: controller move-assignment is merge-vs-replace asymmetric — moving a
source controller map `B` into a destination map `A` adopts `B` wholesale
when `A` is empty, and otherwise assigns each of `B`'s (key, spec) pairs
into `A`: keys of `A` that exist in `B` now hold `B`'s specs, every other
key of `A` is untouched (the hypothesis is the key-uniqueness invariant of
the source's `unordered_map`). -/
theorem move_assign_merge_or_replace {κ P : Type} [DecidableEq κ]
    (A B : List (κ × P)) (hB : NodupKeys B) :
    (A = [] → input_parameter_controller.move_assign A B = B)
  ∧ (A ≠ [] → ∀ k, mfind (input_parameter_controller.move_assign A B) k =
      (match mfind B k with
       | some v => some v
       | none => mfind A k)) := by
  constructor
  · intro hA
    subst hA
    simp [input_parameter_controller.move_assign]
  · intro hA k
    have hne : A.isEmpty = false := by
      cases A with
      | nil => exact absurd rfl hA
      | cons p rest => rfl
    rw [input_parameter_controller.move_assign, hne]
    simp only [Bool.false_eq_true, if_false]
    exact mfind_foldl_massign B A k hB

/-- C5 witness: a concrete merge — destination keeps its key 2, key 1 is
overwritten by the source, key 3 is brought in by the source. -/
theorem move_assign_merge_or_replace_witness :
    NodupKeys ([(1, 100), (3, 30)] : List (Nat × Nat))
  ∧ ([(1, 10), (2, 20)] : List (Nat × Nat)) ≠ []
  ∧ mfind (input_parameter_controller.move_assign
      ([(1, 10), (2, 20)] : List (Nat × Nat)) [(1, 100), (3, 30)]) 2 = some 20
  ∧ mfind (input_parameter_controller.move_assign
      ([(1, 10), (2, 20)] : List (Nat × Nat)) [(1, 100), (3, 30)]) 1
      = some 100 := by
  have h := (move_assign_merge_or_replace
      ([(1, 10), (2, 20)] : List (Nat × Nat)) [(1, 100), (3, 30)]
      (by decide)).2 (by decide)
  refine ⟨by decide, by decide, ?_, ?_⟩
  · rw [h 2]; decide
  · rw [h 1]; decide

theorem check_range_check_ok_eq (t : VTy) (name : String)
    (low high : t.denote) (h : Handler) :
    ∀ h2, check_range.check t name low high h = .ok h2 → h2 = h := by
  intro h2 hok
  unfold check_range.check at hok
  split at hok
  · split at hok
    · exact Except.noConfusion hok
    · split at hok
      · exact Except.noConfusion hok
      · injection hok with hh
        exact hh.symm
  · injection hok with hh
    exact hh.symm

/-- C6: `check_range` passes trivially when the parameter's name is absent
from the handler; when the name is present and holds a value of the
parameter's type, it fails with the out-of-range error exactly when
`value < low` or `value > high` (so both bounds pass — inclusive); and it
never mutates the handler (every passing run returns the handler it was
given). -/
theorem check_range_passes_absent_bounds_inclusive (t : VTy) (name : String)
    (low high : t.denote) (h : Handler) :
    (Handler.contains h name = false →
        check_range.check t name low high h = .ok h)
  ∧ (∀ (a : AnyVal) (value : t.denote),
        mfind h name = some a → anyCast t a = some value →
        check_range.check t name low high h =
          (if t.blt value low || t.blt high value then
             .error (.outOfRange name)
           else .ok h))
  ∧ (∀ h2, check_range.check t name low high h = .ok h2 → h2 = h) := by
  refine ⟨?_, ?_, ?_⟩
  · intro hc
    simp [check_range.check, hc]
  · intro a value ha hcast
    have hc : Handler.contains h name = true := by
      simp [Handler.contains, ha]
    simp [check_range.check, hc, Handler.get, ha, hcast]
  · exact check_range_check_ok_eq t name low high h

/-- C6 witness: a present value equal to the upper bound passes (bounds are
inclusive). -/
theorem check_range_witness :
    check_range.check .vint "p" (1 : Int) (60 : Int)
        [("p", mkAny .vint 60)] = .ok [("p", mkAny .vint 60)] := by
  have h := (check_range_passes_absent_bounds_inclusive .vint "p" 1 60
      [("p", mkAny .vint 60)]).2.1 (mkAny .vint 60) 60 rfl rfl
  rw [h]
  rfl

/-- C7: `set_default` inserts the default value under the parameter's name
exactly when the name is absent; a present entry is never overwritten (the
handler comes back completely unchanged), and re-applying the rule to its
own output changes nothing (idempotence). -/
theorem set_default_fills_only_absent (t : VTy) (name : String)
    (value : t.denote) (h : Handler) :
    (Handler.contains h name = true → set_default.check t name value h = .ok h)
  ∧ (Handler.contains h name = false →
        set_default.check t name value h
          = .ok (Handler.insert h name (mkAny t value))
        ∧ mfind (Handler.insert h name (mkAny t value)) name
          = some (mkAny t value))
  ∧ (∀ h2, set_default.check t name value h = .ok h2 →
        set_default.check t name value h2 = .ok h2) := by
  refine ⟨?_, ?_, ?_⟩
  · intro hc
    simp [set_default.check, hc]
  · intro hc
    exact ⟨by simp [set_default.check, hc],
      by simp [Handler.insert, mfind_massign_self]⟩
  · intro h2 hok
    by_cases hc : Handler.contains h name
    · simp [set_default.check, hc] at hok
      subst hok
      simp [set_default.check, hc]
    · simp [set_default.check, hc] at hok
      subst hok
      have hc2 : Handler.contains (Handler.insert h name (mkAny t value)) name
          = true := by
        simp [Handler.contains, Handler.insert, mfind_massign_self]
      simp [set_default.check, hc2]

/-- C7 witness: the default is inserted into an empty handler, and an
existing user value survives a later default-fill. -/
theorem set_default_fills_only_absent_witness :
    set_default.check .vint "p" (30 : Int) []
      = .ok (Handler.insert [] "p" (mkAny .vint 30))
  ∧ set_default.check .vint "p" (30 : Int) [("p", mkAny .vint 120)]
      = .ok [("p", mkAny .vint 120)] :=
  ⟨((set_default_fills_only_absent .vint "p" 30 []).2.1 rfl).1,
   (set_default_fills_only_absent .vint "p" 30
      [("p", mkAny .vint 120)]).1 rfl⟩

/-- C8: rule chains run in registration order with fail-fast.  First
conjunct: with `RequiredRule` registered before `RangeRule` and the
parameter absent, the chain fails with the missing-parameter error and the
range check is never evaluated (the result does not depend on the bounds or
on any later rules).  Second conjunct: in general the chain splits at any
point — the earlier rules run first, the later rules run on the handler the
earlier ones produced, and a failure in the earlier part is returned as is,
never running the later part. -/
theorem check_parameter_fail_fast (t : VTy) (name : String)
    (low high : t.denote) (rest : List (Rule t)) (h : Handler) :
    (Handler.contains h name = false →
        input_parameter.check_parameter name
          (Rule.required :: Rule.range low high :: rest) h
          = (h, some (.missingParam name)))
  ∧ (∀ (rules1 rules2 : List (Rule t)),
        input_parameter.check_parameter name (rules1 ++ rules2) h =
          (match input_parameter.check_parameter name rules1 h with
           | (h2, none) => input_parameter.check_parameter name rules2 h2
           | r => r)) := by
  constructor
  · intro hc
    simp [input_parameter.check_parameter, Rule.check, is_required.check, hc]
  · intro rules1 rules2
    induction rules1 generalizing h with
    | nil => simp [input_parameter.check_parameter]
    | cons r rrest ih =>
        cases hr : r.check name h with
        | error e => simp [input_parameter.check_parameter, hr]
        | ok h2 => simp [input_parameter.check_parameter, hr, ih]

/-- C8 witness: required-then-range on an empty handler fails with the
missing-parameter error. -/
theorem check_parameter_fail_fast_witness :
    input_parameter.check_parameter "p"
      ([Rule.required, Rule.range 1 60] : List (Rule .vint)) []
      = ([], some (.missingParam "p")) :=
  (check_parameter_fail_fast .vint "p" 1 60 [] []).1 rfl

theorem rule_check_ok_frame {t : VTy} (r : Rule t) (name : String)
    (h h2 : Handler) (k : String) (hk : k ≠ name)
    (hok : r.check name h = .ok h2) : mfind h2 k = mfind h k := by
  cases r with
  | required =>
      simp only [Rule.check] at hok
      unfold is_required.check at hok
      split at hok
      · injection hok with hh
        rw [← hh]
      · exact Except.noConfusion hok
  | range low high =>
      simp only [Rule.check] at hok
      have hh := check_range_check_ok_eq t name low high h h2 hok
      rw [hh]
  | dflt v =>
      simp only [Rule.check] at hok
      unfold set_default.check at hok
      split at hok
      · injection hok with hh
        rw [← hh]
      · injection hok with hh
        rw [← hh, Handler.insert, mfind_massign_ne h name k (mkAny t v) hk]
  | typeCheck =>
      simp only [Rule.check] at hok
      unfold check_data_type.check at hok
      split at hok
      · split at hok
        · exact Except.noConfusion hok
        · injection hok with hh
          rw [← hh]
      · injection hok with hh
        rw [← hh]

/-- C10: frame property of the rule chain — running a parameter's
`check_parameter(handler)` touches the handler at most at that parameter's
own name: every other key's presence and value are unchanged, whether the
chain succeeds or fails. -/
theorem check_parameter_frame {t : VTy} (name : String) (rules : List (Rule t))
    (h : Handler) (k : String) (hk : k ≠ name) :
    mfind (input_parameter.check_parameter name rules h).1 k = mfind h k := by
  induction rules generalizing h with
  | nil => rfl
  | cons r rest ih =>
      unfold input_parameter.check_parameter
      cases hr : r.check name h with
      | error e => rfl
      | ok h2 =>
          rw [ih h2, rule_check_ok_frame r name h h2 k hk hr]

/-- C10 witness: a chain holding all four rule kinds for parameter "p"
leaves the entry of the unrelated key "q" exactly as it was. -/
theorem check_parameter_frame_witness :
    "q" ≠ "p"
  ∧ mfind (input_parameter.check_parameter "p"
      ([Rule.required, Rule.dflt 30, Rule.range 1 60, Rule.typeCheck]
        : List (Rule .vint))
      [("q", mkAny .vstr "z"), ("p", mkAny .vint 5)]).1 "q"
      = mfind [("q", mkAny .vstr "z"), ("p", mkAny .vint 5)] "q" :=
  ⟨by decide,
   check_parameter_frame "p"
     ([Rule.required, Rule.dflt 30, Rule.range 1 60, Rule.typeCheck]
       : List (Rule .vint))
     [("q", mkAny .vstr "z"), ("p", mkAny .vint 5)] "q" (by decide)⟩
